import Mathlib

/-!
Verification of the inner-tracker week-state store.

Shallow embedding of the state model and operations of the INNER
Life-Balance Tracker page (`src/app/page.tsx`, v2.2).  JavaScript objects
used as string-keyed dictionaries are embedded as association lists,
JavaScript numbers as rationals, and `Math.round` as Mathlib's `round`
(both are round-half-up).  The derived metrics, the habit/tick operations,
the JSON import check, the export document and the week-shifting store
logic are translated directly from the source.
-/

namespace InnerTracker

/-- Kind of a habit: `inner` or `outer` (source type `HabitKind`). -/
inductive HabitKind where
  | inner
  | outer
deriving DecidableEq

/-- Source type `Habit`: `{ id, name, enabled, kind }`. -/
structure Habit where
  id : String
  name : String
  enabled : Bool
  kind : HabitKind
deriving DecidableEq

/-- Source type `ChecklistItem`: `{ id, text, done }`. -/
structure ChecklistItem where
  id : String
  text : String
  done : Bool
deriving DecidableEq

/-- Source type `Section`: tagged union of checklist, notes and number
sections (each variant carries `id` and `title`). -/
inductive Sect where
  | checklist (id : String) (title : String) (items : List ChecklistItem)
  | notes (id : String) (title : String) (text : String)
  | number (id : String) (title : String) (value : ℚ)
deriving DecidableEq

/-- The `meta` field of a week state (source `newWeekState`). -/
structure Meta where
  weekStart : String
  createdAt : String
  theme : String
  logoDataUrl : String
deriving DecidableEq

/-- The `metrics` field of a week state (source `newWeekState`). -/
structure Metrics where
  realMetricLabel : String
  realMetricValue : String
  screenTimeTarget : String
  dailyInnerMinutes : List ℚ
  innerShareEstimate : ℚ
deriving DecidableEq

/-- The `oneTime` field of a week state (source `newWeekState`). -/
structure OneTime where
  whysTopic : String
  rootCause : String
  vanityFrom : String
  realTo : String
  seam : String
  bridgeAction : String
  bridgeWhen : String
deriving DecidableEq

/-- The `reflection` field of a week state (source `newWeekState`). -/
structure Reflection where
  helped : String
  overPolish : String
  stop : String
  cont : String
  start : String
  nextInnerShare : ℚ
  commitment : String
deriving DecidableEq

/-- A per-week state record, the shape produced by `newWeekState`.  The
`ticks` dictionary (habit id to 7-element boolean array) is embedded as an
association list, matching a JavaScript object's insertion-ordered keys. -/
structure WeekState where
  meta : Meta
  metrics : Metrics
  habits : List Habit
  ticks : List (String × List Bool)
  sections : List Sect
  oneTime : OneTime
  wins : List String
  reflection : Reflection
deriving DecidableEq

/-- Property lookup on a string-keyed JavaScript object (first matching
key; JS objects have unique keys, so this is the plain lookup). -/
def objGet {α : Type} : List (String × α) → String → Option α
  | [], _ => none
  | (k', v) :: rest, k => if k' = k then some v else objGet rest k

/-- Object spread update `{ ...o, [k]: v }`: overwrites the value of an
existing key in place, otherwise appends the new key at the end. -/
def objUpsert {α : Type} (o : List (String × α)) (k : String) (v : α) :
    List (String × α) :=
  if (objGet o k).isSome then
    o.map (fun p => if p.1 = k then (p.1, v) else p)
  else
    o ++ [(k, v)]

/-- Rest-destructuring deletion `const { [k]: _, ...rest } = o`. -/
def objRemove {α : Type} (o : List (String × α)) (k : String) :
    List (String × α) :=
  o.filter (fun p => ¬ (p.1 = k))

/-- Source `DEFAULT_HABITS` (display names elided to short labels; only
ids, enabled flags and kinds matter to the verified logic). -/
def DEFAULT_HABITS : List Habit :=
  [ ⟨"upstream", "2-min upstream block (start of day)", true, .inner⟩,
    ⟨"sleep", "Sleep >= 7h", true, .inner⟩,
    ⟨"move", "Move 20+ min", true, .inner⟩,
    ⟨"noscroll", "No-scroll bedtime", true, .inner⟩,
    ⟨"learn", "Learn (10 pages / 20 min)", true, .inner⟩,
    ⟨"fuel", "Fuel/Water (prep or >=2L)", true, .inner⟩,
    ⟨"connect", "Connect (msg/call someone who matters)", true, .inner⟩,
    ⟨"screentime", "Screen time <= target (hrs)", true, .inner⟩,
    ⟨"publish", "Post something public", false, .outer⟩ ]

/-- Source `newWeekState(weekStartISO)`: default habits, an all-false
7-element tick array per default habit, empty sections and blank fields.
The creation timestamp `new Date().toISOString()` is passed in as `now`. -/
def newWeekState (weekStartISO : String) (now : String) : WeekState where
  meta := ⟨weekStartISO, now, "", ""⟩
  metrics := ⟨"Sleep hours", "", "2.5", List.replicate 7 2, 60⟩
  habits := DEFAULT_HABITS
  ticks := DEFAULT_HABITS.map (fun h => (h.id, List.replicate 7 false))
  sections := []
  oneTime := ⟨"", "", "", "", "", "", ""⟩
  wins := ["", "", "", "", ""]
  reflection := ⟨"", "", "", "", "", 60, ""⟩

/-- Tick array of a habit id, `week.ticks[h.id]` (defaulting to `[]` where
the JavaScript source would fault on a missing key; theorems that depend
on the array carry a presence hypothesis). -/
def ticksOf (w : WeekState) (id : String) : List Bool :=
  (objGet w.ticks id).getD []

/-- Count of set entries, `arr.filter(Boolean).length`. -/
def countTrue (l : List Bool) : ℕ :=
  (l.filter (fun b => b)).length

/-- Source `enabledHabits`: `week.habits.filter((h) => h.enabled)`. -/
def enabledHabits (w : WeekState) : List Habit :=
  w.habits.filter (fun h => h.enabled)

/-- Source `ticksCount`: total set ticks over the enabled habits. -/
def ticksCount (w : WeekState) : ℕ :=
  (enabledHabits w).foldl (fun sum h => sum + countTrue (ticksOf w h.id)) 0

/-- Source `totalCells = enabledHabits.length * 7`. -/
def totalCells (w : WeekState) : ℕ :=
  (enabledHabits w).length * 7

/-- Source `habitScore = totalCells ? Math.round((ticksCount / totalCells) * 100) : 0`. -/
def habitScore (w : WeekState) : ℤ :=
  if totalCells w = 0 then 0
  else round ((ticksCount w : ℚ) / (totalCells w : ℚ) * 100)

/-- Source `innerTicks`: set ticks over enabled habits of kind inner. -/
def innerTicks (w : WeekState) : ℕ :=
  ((enabledHabits w).filter (fun h => h.kind = .inner)).foldl
    (fun sum h => sum + countTrue (ticksOf w h.id)) 0

/-- Source `outerTicks`: set ticks over enabled habits of kind outer. -/
def outerTicks (w : WeekState) : ℕ :=
  ((enabledHabits w).filter (fun h => h.kind = .outer)).foldl
    (fun sum h => sum + countTrue (ticksOf w h.id)) 0

/-- Source `totalTaggedTicks = innerTicks + outerTicks`. -/
def totalTaggedTicks (w : WeekState) : ℕ :=
  innerTicks w + outerTicks w

/-- Source `innerPct = totalTaggedTicks ? Math.round((innerTicks / totalTaggedTicks) * 100) : 0`. -/
def innerPct (w : WeekState) : ℤ :=
  if totalTaggedTicks w = 0 then 0
  else round ((innerTicks w : ℚ) / (totalTaggedTicks w : ℚ) * 100)

/-- Source `totalInnerMinutes`: `dailyInnerMinutes.reduce((a,b)=>a+Number(b||0),0)`
(for a numeric entry `b`, `Number(b||0) = b`, since `0||0` is `0`). -/
def totalInnerMinutes (w : WeekState) : ℚ :=
  w.metrics.dailyInnerMinutes.foldl (fun a b => a + b) 0

/-- Source `targetInnerMinutes = 2 * 7`. -/
def targetInnerMinutes : ℚ := 2 * 7

/-- Source `innerProgress = Math.min(100, Math.round((totalInnerMinutes / targetInnerMinutes) * 100))`. -/
def innerProgress (w : WeekState) : ℤ :=
  min 100 (round (totalInnerMinutes w / targetInnerMinutes * 100))

/-- Source `addHabit`: appends `{ id, name, enabled: true, kind: "inner" }`
and sets `ticks[id]` to a fresh all-false 7-element array (the id built in
the source from the name plus a random suffix is passed in as `id`). -/
def addHabit (w : WeekState) (id : String) (name : String) : WeekState :=
  { w with
    habits := w.habits ++ [⟨id, name, true, .inner⟩],
    ticks := objUpsert w.ticks id (List.replicate 7 false) }

/-- Source `removeHabit`: filters the habit out of `habits` and removes
its key from `ticks` by rest-destructuring. -/
def removeHabit (w : WeekState) (id : String) : WeekState :=
  { w with
    habits := w.habits.filter (fun h => ¬ (h.id = id)),
    ticks := objRemove w.ticks id }

/-- Source `setTick(habitId, dayIndex, val)`: replaces `ticks[habitId]`
with `prev.ticks[habitId].map((b, i) => (i === dayIndex ? val : b))`; the
index-equality map is exactly `List.set dayIndex val`. -/
def setTick (w : WeekState) (habitId : String) (dayIndex : ℕ) (val : Bool) :
    WeekState :=
  { w with
    ticks := objUpsert w.ticks habitId
      (((objGet w.ticks habitId).getD []).set dayIndex val) }

/-- Source `setHabitName`. -/
def setHabitName (w : WeekState) (id : String) (name : String) : WeekState :=
  { w with habits := w.habits.map (fun h => if h.id = id then { h with name := name } else h) }

/-- Source `setHabitEnabled`. -/
def setHabitEnabled (w : WeekState) (id : String) (enabled : Bool) : WeekState :=
  { w with habits := w.habits.map (fun h => if h.id = id then { h with enabled := enabled } else h) }

/-- Source `setHabitKind`. -/
def setHabitKind (w : WeekState) (id : String) (kind : HabitKind) : WeekState :=
  { w with habits := w.habits.map (fun h => if h.id = id then { h with kind := kind } else h) }

/-- Tick-mapping well-formedness: every habit in the list (in particular
every enabled one) has a 7-element boolean array under its id in `ticks`. -/
def TicksWF (w : WeekState) : Prop :=
  ∀ h ∈ w.habits, (objGet w.ticks h.id).map List.length = some 7

instance (w : WeekState) : Decidable (TicksWF w) := by
  unfold TicksWF; infer_instance

/-- One state-mutating UI action of the tracker component.  The `frame`
constructor covers every `setWeek` call that edits only the metadata,
metrics, sections, one-time, wins or reflection fields (theme and metric
inputs, section editing, reflection forms, the week-start fixup effect);
`reset` is `resetWeek`, which installs `newWeekState` for the active week. -/
inductive Step : WeekState → WeekState → Prop where
  | addHabit (w : WeekState) (id name : String) : Step w (addHabit w id name)
  | removeHabit (w : WeekState) (id : String) : Step w (removeHabit w id)
  | setTick (w : WeekState) (id : String) (d : ℕ) (v : Bool) :
      Step w (setTick w id d v)
  | setHabitName (w : WeekState) (id name : String) :
      Step w (setHabitName w id name)
  | setHabitEnabled (w : WeekState) (id : String) (b : Bool) :
      Step w (setHabitEnabled w id b)
  | setHabitKind (w : WeekState) (id : String) (k : HabitKind) :
      Step w (setHabitKind w id k)
  | frame (w w' : WeekState) (hhabits : w'.habits = w.habits)
      (hticks : w'.ticks = w.ticks) : Step w w'
  | reset (w : WeekState) (iso now : String) : Step w (newWeekState iso now)

/-- States reachable from a freshly created week through the tracker's own
mutation actions. -/
def Reachable (w : WeekState) : Prop :=
  ∃ iso now, Relation.ReflTransGen Step (newWeekState iso now) w

/-- A parsed JSON document (numbers as rationals, objects as
insertion-ordered association lists). -/
inductive Json where
  | null
  | bool (b : Bool)
  | num (q : ℚ)
  | str (s : String)
  | arr (xs : List Json)
  | obj (fields : List (String × Json))

/-- JavaScript truthiness of a JSON value: `null`, `false`, `0` and `""`
are falsy, everything else (any object or array) is truthy. -/
def Json.truthy : Json → Bool
  | .null => false
  | .bool b => b
  | .num q => decide (q ≠ 0)
  | .str s => decide (s ≠ "")
  | .arr _ => true
  | .obj _ => true

/-- Optional-chained property access `data?.k`: a field lookup on an
object, and `undefined` (here `none`) on any non-object value. -/
def jget : Json → String → Option Json
  | .obj fields, k => objGet fields k
  | _, _ => none

/-- Truthiness of `data?.k` (a missing field, like `undefined`, is falsy). -/
def fieldTruthy (data : Json) (k : String) : Bool :=
  match jget data k with
  | some v => v.truthy
  | none => false

/-- The import guard `data?.meta && data?.habits && data?.ticks`. -/
def importCheck (data : Json) : Bool :=
  fieldTruthy data "meta" && fieldTruthy data "habits" && fieldTruthy data "ticks"

/-- Source `importJSON` after the file has been read and `JSON.parse`
applied: `parsed = none` is a parse failure ("Could not read file");
a parsed document failing the guard alerts "Invalid file format".  The
result is the week-state document now active (imports replace the state
with the raw parsed object) paired with `true` when an alert was shown. -/
def importJSONRun (parsed : Option Json) (cur : Json) : Json × Bool :=
  match parsed with
  | none => (cur, true)
  | some data => if importCheck data then (data, false) else (cur, true)

/-- JSON image of a `HabitKind` under `JSON.stringify`. -/
def encodeKind : HabitKind → Json
  | .inner => .str "inner"
  | .outer => .str "outer"

/-- JSON image of a `Habit` under `JSON.stringify`. -/
def encodeHabit (h : Habit) : Json :=
  .obj [("id", .str h.id), ("name", .str h.name),
        ("enabled", .bool h.enabled), ("kind", encodeKind h.kind)]

/-- JSON image of a `ChecklistItem` under `JSON.stringify`. -/
def encodeItem (it : ChecklistItem) : Json :=
  .obj [("id", .str it.id), ("text", .str it.text), ("done", .bool it.done)]

/-- JSON image of a `Sect` under `JSON.stringify` (field order as built by
`addSection` in the source). -/
def encodeSect : Sect → Json
  | .checklist id title items =>
      .obj [("id", .str id), ("type", .str "checklist"), ("title", .str title),
            ("items", .arr (items.map encodeItem))]
  | .notes id title text =>
      .obj [("id", .str id), ("type", .str "notes"), ("title", .str title),
            ("text", .str text)]
  | .number id title value =>
      .obj [("id", .str id), ("type", .str "number"), ("title", .str title),
            ("value", .num value)]

/-- JSON image of the `meta` field. -/
def encodeMeta (m : Meta) : Json :=
  .obj [("weekStart", .str m.weekStart), ("createdAt", .str m.createdAt),
        ("theme", .str m.theme), ("logoDataUrl", .str m.logoDataUrl)]

/-- JSON image of the `metrics` field. -/
def encodeMetrics (m : Metrics) : Json :=
  .obj [("realMetricLabel", .str m.realMetricLabel),
        ("realMetricValue", .str m.realMetricValue),
        ("screenTimeTarget", .str m.screenTimeTarget),
        ("dailyInnerMinutes", .arr (m.dailyInnerMinutes.map Json.num)),
        ("innerShareEstimate", .num m.innerShareEstimate)]

/-- JSON image of the `oneTime` field. -/
def encodeOneTime (o : OneTime) : Json :=
  .obj [("whysTopic", .str o.whysTopic), ("rootCause", .str o.rootCause),
        ("vanityFrom", .str o.vanityFrom), ("realTo", .str o.realTo),
        ("seam", .str o.seam), ("bridgeAction", .str o.bridgeAction),
        ("bridgeWhen", .str o.bridgeWhen)]

/-- JSON image of the `reflection` field. -/
def encodeReflection (r : Reflection) : Json :=
  .obj [("helped", .str r.helped), ("overPolish", .str r.overPolish),
        ("stop", .str r.stop), ("cont", .str r.cont), ("start", .str r.start),
        ("nextInnerShare", .num r.nextInnerShare),
        ("commitment", .str r.commitment)]

/-- Source `exportJSON`: the JSON document `JSON.stringify(week, null, 2)`
serializes (field order as in `newWeekState`); `JSON.parse` of the written
text recovers exactly this value. -/
def exportJSONDoc (w : WeekState) : Json :=
  .obj [("meta", encodeMeta w.meta),
        ("metrics", encodeMetrics w.metrics),
        ("habits", .arr (w.habits.map encodeHabit)),
        ("ticks", .obj (w.ticks.map (fun p => (p.1, .arr (p.2.map Json.bool))))),
        ("sections", .arr (w.sections.map encodeSect)),
        ("oneTime", encodeOneTime w.oneTime),
        ("wins", .arr (w.wins.map Json.str)),
        ("reflection", encodeReflection w.reflection)]

/-- Traverses a list with a partial decoder, failing when any element
fails (the `Option` analogue of `mapM`). -/
def mapOpt {α β : Type} (f : α → Option β) : List α → Option (List β)
  | [] => some []
  | a :: rest =>
    match f a, mapOpt f rest with
    | some b, some bs => some (b :: bs)
    | _, _ => none

/-- Reads a `HabitKind` back from its JSON image. -/
def decodeKind : Json → Option HabitKind
  | .str "inner" => some .inner
  | .str "outer" => some .outer
  | _ => none

/-- Reads a `Habit` back from its JSON image. -/
def decodeHabit : Json → Option Habit
  | .obj [("id", .str id), ("name", .str name),
          ("enabled", .bool enabled), ("kind", k)] =>
      (decodeKind k).map (fun kind => ⟨id, name, enabled, kind⟩)
  | _ => none

/-- Reads a `ChecklistItem` back from its JSON image. -/
def decodeItem : Json → Option ChecklistItem
  | .obj [("id", .str id), ("text", .str text), ("done", .bool done)] =>
      some ⟨id, text, done⟩
  | _ => none

/-- Reads a `Sect` back from its JSON image. -/
def decodeSect : Json → Option Sect
  | .obj [("id", .str id), ("type", .str "checklist"), ("title", .str title),
          ("items", .arr items)] =>
      (mapOpt decodeItem items).map (fun its => .checklist id title its)
  | .obj [("id", .str id), ("type", .str "notes"), ("title", .str title),
          ("text", .str text)] =>
      some (.notes id title text)
  | .obj [("id", .str id), ("type", .str "number"), ("title", .str title),
          ("value", .num value)] =>
      some (.number id title value)
  | _ => none

/-- Reads a boolean back from its JSON image. -/
def decodeBool : Json → Option Bool
  | .bool b => some b
  | _ => none

/-- Reads a number back from its JSON image. -/
def decodeNum : Json → Option ℚ
  | .num q => some q
  | _ => none

/-- Reads a string back from its JSON image. -/
def decodeStr : Json → Option String
  | .str s => some s
  | _ => none

/-- Reads one tick-mapping entry back from its JSON image. -/
def decodeTickEntry (p : String × Json) : Option (String × List Bool) :=
  match p.2 with
  | .arr bs => (mapOpt decodeBool bs).map (fun l => (p.1, l))
  | _ => none

/-- Reads the `meta` field back from its JSON image. -/
def decodeMeta : Json → Option Meta
  | .obj [("weekStart", .str a), ("createdAt", .str b),
          ("theme", .str c), ("logoDataUrl", .str d)] => some ⟨a, b, c, d⟩
  | _ => none

/-- Reads the `metrics` field back from its JSON image. -/
def decodeMetrics : Json → Option Metrics
  | .obj [("realMetricLabel", .str a), ("realMetricValue", .str b),
          ("screenTimeTarget", .str c), ("dailyInnerMinutes", .arr ds),
          ("innerShareEstimate", .num e)] =>
      (mapOpt decodeNum ds).map (fun l => ⟨a, b, c, l, e⟩)
  | _ => none

/-- Reads the `oneTime` field back from its JSON image. -/
def decodeOneTime : Json → Option OneTime
  | .obj [("whysTopic", .str a), ("rootCause", .str b), ("vanityFrom", .str c),
          ("realTo", .str d), ("seam", .str e), ("bridgeAction", .str f),
          ("bridgeWhen", .str g)] => some ⟨a, b, c, d, e, f, g⟩
  | _ => none

/-- Reads the `reflection` field back from its JSON image. -/
def decodeReflection : Json → Option Reflection
  | .obj [("helped", .str a), ("overPolish", .str b), ("stop", .str c),
          ("cont", .str d), ("start", .str e), ("nextInnerShare", .num f),
          ("commitment", .str g)] => some ⟨a, b, c, d, e, f, g⟩
  | _ => none

/-- Reads a whole `WeekState` back from an exported document; a left
inverse of `exportJSONDoc`, witnessing that the document determines the
state. -/
def decodeWeekState : Json → Option WeekState
  | .obj [("meta", jm), ("metrics", jx), ("habits", .arr jhs),
          ("ticks", .obj jts), ("sections", .arr jss), ("oneTime", jo),
          ("wins", .arr jws), ("reflection", jr)] =>
      match decodeMeta jm, decodeMetrics jx, mapOpt decodeHabit jhs,
            mapOpt decodeTickEntry jts, mapOpt decodeSect jss,
            decodeOneTime jo, mapOpt decodeStr jws, decodeReflection jr with
      | some m, some x, some hs, some ts, some ss, some o, some ws, some r =>
          some ⟨m, x, hs, ts, ss, o, ws, r⟩
      | _, _, _, _, _, _, _, _ => none
  | _ => none

/-- Rendering of a week-start day (days since an epoch, always a Monday in
the source) as its ISO date string, modelling `formatISO`; any injective
rendering serves, since only key identity matters to the store. -/
def isoOfDay (d : ℤ) : String := toString d

/-- The component's persistent state: the active week-start pointer
(`weekStartISO`, here as a day number), the in-memory `week` object held
by `useState`, and the `localStorage` entries under the
`"inner-tracker-v2.2:" + iso` keys (values kept in parsed form, since
`JSON.parse` recovers what `JSON.stringify` wrote). -/
structure App where
  weekStart : ℤ
  week : WeekState
  storage : List (String × WeekState)

/-- Source `shiftWeek(delta)` together with the re-render effects it
triggers.  The handler computes the new week-start date and calls
`setWeek(newWeekState(nextISO))` only when no entry is persisted for the
new key — when one exists, `week` is the `useState` value, which is NOT
re-initialized for the new key, so the previous week's in-memory object
stays.  On re-render, the persist effect (`[key, state]` changed) writes
the current `week` under the NEW key, and the week-start fixup effect
rewrites `week.meta.weekStart` to the new ISO date (persisting again). -/
def shiftWeek (a : App) (delta : ℤ) (now : String) : App :=
  let next := a.weekStart + delta * 7
  let iso := isoOfDay next
  let week1 := if (objGet a.storage iso).isSome then a.week
               else newWeekState iso now
  let week2 := if week1.meta.weekStart = iso then week1
               else { week1 with meta := { week1.meta with weekStart := iso } }
  { weekStart := next, week := week2, storage := objUpsert a.storage iso week2 }

/-- Source `useLocalState` read path, the spec's `loadOrCreate`: a missing
entry (`getItem` returned `null`) or one whose text `JSON.parse` rejects
(the `catch`) yields the `initial` value; otherwise the parsed persisted
value is returned.  `entry = none` is a missing key, `some none` a
corrupt one, `some (some v)` one parsing to `v`. -/
def loadOrCreate {α : Type} (entry : Option (Option α)) (initial : α) : α :=
  match entry with
  | none => initial
  | some none => initial
  | some (some v) => v

@[simp] theorem objGet_nil {α : Type} (k : String) :
    objGet ([] : List (String × α)) k = none := rfl

@[simp] theorem objGet_cons {α : Type} (p : String × α)
    (rest : List (String × α)) (k : String) :
    objGet (p :: rest) k = if p.1 = k then some p.2 else objGet rest k := by
  obtain ⟨p1, p2⟩ := p
  rfl

theorem objGet_map_upd {α : Type} (o : List (String × α)) (k : String) (v : α)
    (k' : String) :
    objGet (o.map (fun p => if p.1 = k then (p.1, v) else p)) k'
      = if k' = k then (objGet o k).map (fun _ => v) else objGet o k' := by
  induction o with
  | nil => by_cases hk : k' = k <;> simp [hk]
  | cons p rest ih =>
    obtain ⟨p1, p2⟩ := p
    by_cases hpk : p1 = k <;> by_cases hp' : p1 = k'
    · have hkk : k' = k := hp'.symm.trans hpk
      simp [hpk, hp', hkk]
    · have hkk : ¬ k' = k := fun h => hp' (hpk.trans h.symm)
      have hkk2 : ¬ k = k' := fun h => hkk h.symm
      simp [hpk, hp', hkk, hkk2, ih]
    · have hkk : ¬ k' = k := fun h => hpk (hp'.trans h)
      simp [hpk, hp', hkk]
    · simp [hpk, hp', ih]

theorem objGet_append_single {α : Type} (o : List (String × α)) (k : String)
    (v : α) (k' : String) (habs : objGet o k = none) :
    objGet (o ++ [(k, v)]) k' = if k' = k then some v else objGet o k' := by
  induction o with
  | nil =>
    by_cases hk : k' = k
    · simp [hk]
    · have hk2 : ¬ k = k' := fun h => hk h.symm
      simp [hk, hk2]
  | cons p rest ih =>
    obtain ⟨p1, p2⟩ := p
    simp only [objGet_cons] at habs
    by_cases hpk : p1 = k
    · rw [if_pos hpk] at habs
      exact absurd habs (by simp)
    · rw [if_neg hpk] at habs
      by_cases hp' : p1 = k'
      · have hkk : ¬ k' = k := fun h => hpk (hp'.trans h)
        simp [hp', hkk]
      · simp [hp', ih habs]

theorem objGet_objUpsert {α : Type} (o : List (String × α)) (k : String) (v : α)
    (k' : String) :
    objGet (objUpsert o k v) k' = if k' = k then some v else objGet o k' := by
  unfold objUpsert
  by_cases hp : (objGet o k).isSome
  · rw [if_pos hp, objGet_map_upd]
    by_cases hk : k' = k
    · obtain ⟨arr, harr⟩ := Option.isSome_iff_exists.mp hp
      rw [if_pos hk, if_pos hk, harr]
      rfl
    · rw [if_neg hk, if_neg hk]
  · rw [if_neg hp]
    exact objGet_append_single o k v k' (Option.not_isSome_iff_eq_none.mp hp)

theorem objRemove_cons {α : Type} (p : String × α) (rest : List (String × α))
    (k : String) :
    objRemove (p :: rest) k =
      if p.1 = k then objRemove rest k else p :: objRemove rest k := by
  obtain ⟨p1, p2⟩ := p
  by_cases h : p1 = k <;> simp [objRemove, List.filter_cons, h]

theorem objGet_objRemove {α : Type} (o : List (String × α)) (k : String)
    (k' : String) :
    objGet (objRemove o k) k' = if k' = k then none else objGet o k' := by
  induction o with
  | nil => by_cases hk : k' = k <;> simp [objRemove, hk]
  | cons p rest ih =>
    obtain ⟨p1, p2⟩ := p
    rw [objRemove_cons]
    by_cases hpk : p1 = k
    · rw [if_pos hpk, ih, objGet_cons]
      by_cases hkk : k' = k
      · rw [if_pos hkk, if_pos hkk]
      · rw [if_neg hkk, if_neg hkk,
          if_neg (fun h : (p1, p2).1 = k' => hkk (h.symm.trans hpk))]
    · rw [if_neg hpk, objGet_cons, objGet_cons]
      by_cases hp' : p1 = k'
      · have hkk : ¬ k' = k := fun h => hpk (hp'.trans h)
        rw [if_pos hp', if_neg hkk, if_pos hp']
      · rw [if_neg hp', if_neg hp', ih]

theorem objRemove_absent {α : Type} (o : List (String × α)) (k : String)
    (h : objGet o k = none) :
    objRemove o k = o := by
  induction o with
  | nil => rfl
  | cons p rest ih =>
    obtain ⟨p1, p2⟩ := p
    simp only [objGet_cons] at h
    rw [objRemove_cons]
    by_cases hp1 : p1 = k
    · rw [if_pos hp1] at h
      exact absurd h (by simp)
    · rw [if_neg hp1] at h
      rw [if_neg hp1, ih h]

theorem objRemove_append_single {α : Type} (o : List (String × α)) (k : String)
    (v : α) :
    objRemove (o ++ [(k, v)]) k = objRemove o k := by
  unfold objRemove
  rw [List.filter_append]
  simp

theorem round_rat_mono {x y : ℚ} (h : x ≤ y) : round x ≤ round y := by
  rw [round_eq, round_eq]
  exact Int.floor_mono (by linarith)

theorem round_rat_eval (q : ℚ) (z : ℤ) (h1 : (z : ℚ) ≤ q + 1 / 2)
    (h2 : q + 1 / 2 < z + 1) : round q = z := by
  rw [round_eq]
  exact Int.floor_eq_iff.mpr ⟨h1, h2⟩

theorem foldl_add_le_seven {α : Type} (f : α → ℕ) (l : List α)
    (hb : ∀ h ∈ l, f h ≤ 7) :
    ∀ n : ℕ, l.foldl (fun sum h => sum + f h) n ≤ n + l.length * 7 := by
  induction l with
  | nil => intro n; simp
  | cons a l ih =>
    intro n
    simp only [List.foldl_cons, List.length_cons]
    calc List.foldl (fun sum h => sum + f h) (n + f a) l
        ≤ (n + f a) + l.length * 7 := ih (fun h hm => hb h (by simp [hm])) _
      _ ≤ n + (l.length + 1) * 7 := by
          have := hb a (by simp)
          nlinarith

theorem ticksCount_le_totalCells (w : WeekState)
    (hwf : ∀ h ∈ w.habits, h.enabled = true →
      (objGet w.ticks h.id).map List.length = some 7) :
    ticksCount w ≤ totalCells w := by
  have hb : ∀ h ∈ enabledHabits w, countTrue (ticksOf w h.id) ≤ 7 := by
    intro h hm
    rw [enabledHabits, List.mem_filter] at hm
    have := hwf h hm.1 (by simpa using hm.2)
    rcases hg : objGet w.ticks h.id with _ | arr
    · rw [hg] at this; simp at this
    · rw [hg] at this
      simp at this
      rw [ticksOf, hg, Option.getD_some, countTrue, ← this]
      exact List.length_filter_le _ _
  simpa using foldl_add_le_seven _ (enabledHabits w) hb 0

/-- Claim C1: for every week state (with well-formed 7-element tick arrays
for its enabled habits, as the data model requires), `habitScore` is 0
when no habit is enabled, otherwise the rounded percentage of set ticks
over `enabled × 7` cells, and always lies in `[0, 100]`. -/
theorem habitScore_spec (w : WeekState)
    (hwf : ∀ h ∈ w.habits, h.enabled = true →
      (objGet w.ticks h.id).map List.length = some 7) :
    (enabledHabits w = [] → habitScore w = 0) ∧
    (enabledHabits w ≠ [] →
      habitScore w =
        round ((ticksCount w : ℚ) / (((enabledHabits w).length * 7 : ℕ) : ℚ) * 100)) ∧
    0 ≤ habitScore w ∧ habitScore w ≤ 100 := by
  have htot : totalCells w = (enabledHabits w).length * 7 := rfl
  refine ⟨?_, ?_, ?_, ?_⟩
  · intro he
    rw [habitScore, if_pos (by rw [htot, he]; rfl)]
  · intro he
    have hne : totalCells w ≠ 0 := by
      rw [htot]
      simpa using fun hcon => he (List.length_eq_zero.mp hcon)
    rw [habitScore, if_neg hne, htot]
  · rw [habitScore]
    split
    · exact le_refl 0
    · have h0 : (0 : ℤ) = round (0 : ℚ) := by rw [round_zero]
      rw [h0]
      apply round_rat_mono
      positivity
  · rw [habitScore]
    split
    · norm_num
    case isFalse hne =>
      have hle : ticksCount w ≤ totalCells w := ticksCount_le_totalCells w hwf
      have hcpos : (0 : ℚ) < (totalCells w : ℚ) := by
        exact_mod_cast Nat.pos_of_ne_zero hne
      have hx : (ticksCount w : ℚ) / (totalCells w : ℚ) * 100 ≤ 100 := by
        have hdiv : (ticksCount w : ℚ) / (totalCells w : ℚ) ≤ 1 :=
          (div_le_one hcpos).mpr (by exact_mod_cast hle)
        nlinarith
      calc round ((ticksCount w : ℚ) / (totalCells w : ℚ) * 100)
          ≤ round (100 : ℚ) := round_rat_mono hx
        _ = 100 := by norm_num [round_natCast]

/-- Witness for `habitScore_spec` at a freshly created week. -/
theorem habitScore_spec_witness :
    0 ≤ habitScore (newWeekState "2024-01-06" "t") ∧
    habitScore (newWeekState "2024-01-06" "t") ≤ 100 :=
  ⟨(habitScore_spec (newWeekState "2024-01-06" "t") (by decide)).2.2.1,
   (habitScore_spec (newWeekState "2024-01-06" "t") (by decide)).2.2.2⟩

/-- The spec sentence "sum of ticks for habits tagged inner", read
literally: summed over ALL habits of kind inner, enabled or not. -/
def innerTicksAll (w : WeekState) : ℕ :=
  (w.habits.filter (fun h => h.kind = HabitKind.inner)).foldl
    (fun sum h => sum + countTrue (ticksOf w h.id)) 0

/-- Tick sum over the habits that are tagged inner AND enabled (the
amended reading; this is what the code computes). -/
def innerTicksEnabled (w : WeekState) : ℕ :=
  (w.habits.filter (fun h => decide (h.kind = HabitKind.inner) && h.enabled)).foldl
    (fun sum h => sum + countTrue (ticksOf w h.id)) 0

/-- Tick sum over the habits that are tagged outer AND enabled. -/
def outerTicksEnabled (w : WeekState) : ℕ :=
  (w.habits.filter (fun h => decide (h.kind = HabitKind.outer) && h.enabled)).foldl
    (fun sum h => sum + countTrue (ticksOf w h.id)) 0

/-- A state with one tick on a DISABLED inner habit and one tick on an
enabled outer habit (reachable: tick, then disable the habit). -/
def wTagged : WeekState :=
  { newWeekState "2024-01-06" "t" with
    habits := [⟨"a", "A", false, .inner⟩, ⟨"b", "B", true, .outer⟩],
    ticks := [("a", [true, false, false, false, false, false, false]),
              ("b", [true, false, false, false, false, false, false])] }

/-- Counterexample to claim C2 as stated: the code's `innerTicks` counts
only ENABLED inner habits, so it differs from the spec's "sum of ticks for
habits tagged inner" on a state with a ticked, disabled inner habit. -/
theorem innerTicks_claim_counterexample :
    innerTicks wTagged ≠ innerTicksAll wTagged := by
  decide

/-- Claim C2 (amended): the inner/outer tick counts sum the set ticks of
the ENABLED habits tagged inner resp. outer; `innerPct` is the rounded
inner share of the tagged ticks, 0 when there are none; and 3 inner ticks
against 1 outer tick give 75%. -/
theorem innerOuter_spec (w : WeekState) :
    innerTicks w = innerTicksEnabled w ∧
    outerTicks w = outerTicksEnabled w ∧
    (totalTaggedTicks w = 0 → innerPct w = 0) ∧
    (totalTaggedTicks w ≠ 0 →
      innerPct w = round ((innerTicks w : ℚ) / (totalTaggedTicks w : ℚ) * 100)) ∧
    (innerTicks w = 3 → outerTicks w = 1 → innerPct w = 75) := by
  refine ⟨?_, ?_, ?_, ?_, ?_⟩
  · rw [innerTicks, innerTicksEnabled, enabledHabits, List.filter_filter]
  · rw [outerTicks, outerTicksEnabled, enabledHabits, List.filter_filter]
  · intro h0
    rw [innerPct, if_pos h0]
  · intro h0
    rw [innerPct, if_neg h0]
  · intro h3 h1
    have ht : totalTaggedTicks w = 4 := by rw [totalTaggedTicks, h3, h1]
    rw [innerPct, if_neg (by rw [ht]; norm_num), h3, ht]
    exact round_rat_eval _ 75 (by norm_num) (by norm_num)

/-- A state with 3 inner ticks and 1 outer tick. -/
def wTagged75 : WeekState :=
  { newWeekState "2024-01-06" "t" with
    habits := [⟨"a", "A", true, .inner⟩, ⟨"b", "B", true, .outer⟩],
    ticks := [("a", [true, true, true, false, false, false, false]),
              ("b", [true, false, false, false, false, false, false])] }

/-- Witness for `innerOuter_spec`: 3 inner and 1 outer tick give 75%. -/
theorem innerOuter_spec_witness : innerPct wTagged75 = 75 :=
  (innerOuter_spec wTagged75).2.2.2.2 (by decide) (by decide)

theorem foldl_add_eq_sum (l : List ℚ) :
    ∀ a : ℚ, l.foldl (fun x y => x + y) a = a + l.sum := by
  induction l with
  | nil => intro a; simp
  | cons b l ih =>
    intro a
    simp only [List.foldl_cons, List.sum_cons, ih]
    ring

/-- A state whose daily inner minutes sum to 1 (progress rounds 100/14 to
7, while the un-rounded spec formula gives 50/7). -/
def wMinutes : WeekState :=
  { newWeekState "2024-01-06" "t" with
    metrics :=
      { (newWeekState "2024-01-06" "t").metrics with
        dailyInnerMinutes := [1, 0, 0, 0, 0, 0, 0] } }

/-- Counterexample to claim C9 as stated: `innerProgress` rounds the
percentage before taking the minimum, so it differs from the claim's
`min(100, total / 14 × 100)` whenever that value is not an integer. -/
theorem innerProgress_claim_counterexample :
    ((innerProgress wMinutes : ℚ)) ≠
      min 100 (totalInnerMinutes wMinutes / 14 * 100) := by
  have htot : totalInnerMinutes wMinutes = 1 := by
    norm_num [totalInnerMinutes, wMinutes, newWeekState]
  have hr : round ((1 : ℚ) / (2 * 7) * 100) = 7 :=
    round_rat_eval _ 7 (by norm_num) (by norm_num)
  have hip : innerProgress wMinutes = 7 := by
    rw [innerProgress, htot, targetInnerMinutes, hr]
    exact min_eq_right (by norm_num)
  rw [hip, htot, min_eq_right (by norm_num : (1 : ℚ) / 14 * 100 ≤ 100)]
  norm_num

/-- Claim C9 (amended): the inner-minutes progress equals
`min(100, round(total / 14 × 100))` where total is the sum of the seven
`dailyInnerMinutes` entries; in particular it never exceeds 100. -/
theorem innerProgress_spec (w : WeekState) :
    totalInnerMinutes w = w.metrics.dailyInnerMinutes.sum ∧
    innerProgress w =
      min 100 (round (w.metrics.dailyInnerMinutes.sum / 14 * 100)) ∧
    innerProgress w ≤ 100 := by
  have hsum : totalInnerMinutes w = w.metrics.dailyInnerMinutes.sum := by
    rw [totalInnerMinutes, foldl_add_eq_sum, zero_add]
  refine ⟨hsum, ?_, ?_⟩
  · rw [innerProgress, hsum, targetInnerMinutes]
    norm_num
  · rw [innerProgress]
    exact min_le_left _ _

theorem ticksWF_newWeekState (iso now : String) : TicksWF (newWeekState iso now) := by
  intro h hm
  fin_cases hm <;> rfl

theorem ticksWF_step {w w' : WeekState} (hwf : TicksWF w) (hs : Step w w') :
    TicksWF w' := by
  cases hs with
  | addHabit id name =>
    intro h hm
    rw [addHabit] at hm ⊢
    simp only [List.mem_append, List.mem_singleton] at hm
    simp only [objGet_objUpsert]
    rcases hm with hm | hm
    · by_cases hid : h.id = id
      · rw [if_pos hid]
        rfl
      · rw [if_neg hid]
        exact hwf h hm
    · subst hm
      rw [if_pos rfl]
      rfl
  | removeHabit id =>
    intro h hm
    rw [removeHabit] at hm ⊢
    simp only [List.mem_filter, decide_eq_true_eq] at hm
    simp only [objGet_objRemove]
    rw [if_neg hm.2]
    exact hwf h hm.1
  | setTick id d v =>
    intro h hm
    rw [setTick] at hm ⊢
    simp only at hm
    simp only [objGet_objUpsert]
    by_cases hid : h.id = id
    · rw [if_pos hid]
      have hlen := hwf h hm
      rw [hid] at hlen
      rcases hg : objGet w.ticks id with _ | arr
      · rw [hg] at hlen
        simp at hlen
      · rw [hg] at hlen
        simp at hlen
        simp [List.length_set, hlen]
    · rw [if_neg hid]
      exact hwf h hm
  | setHabitName id name =>
    intro h hm
    rw [setHabitName] at hm ⊢
    simp only [List.mem_map] at hm
    obtain ⟨h0, hm0, heq⟩ := hm
    have hid : h.id = h0.id := by
      subst heq
      by_cases hc : h0.id = id <;> simp [hc]
    rw [hid]
    exact hwf h0 hm0
  | setHabitEnabled id b =>
    intro h hm
    rw [setHabitEnabled] at hm ⊢
    simp only [List.mem_map] at hm
    obtain ⟨h0, hm0, heq⟩ := hm
    have hid : h.id = h0.id := by
      subst heq
      by_cases hc : h0.id = id <;> simp [hc]
    rw [hid]
    exact hwf h0 hm0
  | setHabitKind id k =>
    intro h hm
    rw [setHabitKind] at hm ⊢
    simp only [List.mem_map] at hm
    obtain ⟨h0, hm0, heq⟩ := hm
    have hid : h.id = h0.id := by
      subst heq
      by_cases hc : h0.id = id <;> simp [hc]
    rw [hid]
    exact hwf h0 hm0
  | frame w' hhabits hticks =>
    intro h hm
    rw [hhabits] at hm
    rw [hticks]
    exact hwf h hm
  | reset iso now =>
    exact ticksWF_newWeekState iso now

theorem ticksWF_reachable {w : WeekState} (hr : Reachable w) : TicksWF w := by
  obtain ⟨iso, now, hgen⟩ := hr
  induction hgen with
  | refl => exact ticksWF_newWeekState iso now
  | tail _ hstep ih => exact ticksWF_step ih hstep

/-- Claim C3: every reachable week state gives each of its (enabled)
habits a 7-element boolean array in the tick mapping; every mutation step
preserves this well-formedness; `addHabit` initializes an all-false
7-element array under the new id, and `removeHabit` removes the id's
array from the mapping. -/
theorem ticks_invariant :
    (∀ w : WeekState, Reachable w → ∀ h ∈ w.habits, h.enabled = true →
      ∃ arr, objGet w.ticks h.id = some arr ∧ arr.length = 7) ∧
    (∀ w w' : WeekState, TicksWF w → Step w w' → TicksWF w') ∧
    (∀ (w : WeekState) (id name : String),
      objGet (addHabit w id name).ticks id = some (List.replicate 7 false)) ∧
    (∀ (w : WeekState) (id : String),
      objGet (removeHabit w id).ticks id = none) := by
  refine ⟨?_, ?_, ?_, ?_⟩
  · intro w hr h hm _
    have := ticksWF_reachable hr h hm
    rcases hg : objGet w.ticks h.id with _ | arr
    · rw [hg] at this
      simp at this
    · rw [hg] at this
      simp at this
      exact ⟨arr, rfl, this⟩
  · intro w w' hwf hs
    exact ticksWF_step hwf hs
  · intro w id name
    rw [addHabit]
    simp [objGet_objUpsert]
  · intro w id
    rw [removeHabit]
    simp [objGet_objRemove]

/-- Witness for `ticks_invariant` at a freshly created week. -/
theorem ticks_invariant_witness :
    ∃ arr, objGet (newWeekState "2024-01-06" "t").ticks "sleep" = some arr ∧
      arr.length = 7 :=
  ticks_invariant.1 (newWeekState "2024-01-06" "t")
    ⟨"2024-01-06", "t", Relation.ReflTransGen.refl⟩
    ⟨"sleep", "Sleep >= 7h", true, .inner⟩ (by decide) rfl

theorem fieldTruthy_isSome {data : Json} {k : String}
    (h : fieldTruthy data k = true) : (jget data k).isSome = true := by
  rw [fieldTruthy] at h
  rcases hg : jget data k with _ | v
  · rw [hg] at h
    simp at h
  · rfl

/-- Claim C4: the import handler replaces the active state only when the
file parsed as JSON and the parsed document has truthy `meta`, `habits`
and `ticks` top-level fields (so, in particular, contains all three); on a
parse failure, or when any of the three fields is missing, it reports an
error (flag `true`, the alert) and keeps the current state. -/
theorem importJSON_spec (parsed : Option Json) (cur : Json) :
    ((importJSONRun parsed cur).2 = false →
      ∃ d, parsed = some d ∧ (importJSONRun parsed cur).1 = d ∧
        (jget d "meta").isSome = true ∧ (jget d "habits").isSome = true ∧
        (jget d "ticks").isSome = true) ∧
    (parsed = none → importJSONRun parsed cur = (cur, true)) ∧
    (∀ d, parsed = some d →
      (jget d "meta" = none ∨ jget d "habits" = none ∨ jget d "ticks" = none) →
      importJSONRun parsed cur = (cur, true)) := by
  refine ⟨?_, ?_, ?_⟩
  · intro hacc
    cases parsed with
    | none => simp [importJSONRun] at hacc
    | some data =>
      rw [importJSONRun] at hacc ⊢
      by_cases hc : importCheck data = true
      · rw [importCheck] at hc
        simp only [Bool.and_eq_true] at hc
        exact ⟨data, rfl, by rw [if_pos (by rw [importCheck]; simp [hc.1.1, hc.1.2, hc.2])],
          fieldTruthy_isSome hc.1.1, fieldTruthy_isSome hc.1.2,
          fieldTruthy_isSome hc.2⟩
      · rw [if_neg hc] at hacc
        simp at hacc
  · intro hnone
    rw [hnone, importJSONRun]
  · intro d hd hmiss
    rw [hd, importJSONRun]
    have hc : ¬ importCheck d = true := by
      intro hc
      rw [importCheck] at hc
      simp only [Bool.and_eq_true] at hc
      rcases hmiss with hmiss | hmiss | hmiss
      · have := fieldTruthy_isSome hc.1.1
        rw [hmiss] at this
        simp at this
      · have := fieldTruthy_isSome hc.1.2
        rw [hmiss] at this
        simp at this
      · have := fieldTruthy_isSome hc.2
        rw [hmiss] at this
        simp at this
    rw [if_neg hc]

/-- A JSON document with `meta` and `ticks` objects but no `habits` field. -/
def docNoHabits : Json :=
  .obj [("meta", .obj []), ("ticks", .obj [])]

/-- Witness for `importJSON_spec`: a document lacking `habits` is rejected
and the current state is kept. -/
theorem importJSON_spec_witness :
    importJSONRun (some docNoHabits) (Json.str "current") =
      (Json.str "current", true) :=
  (importJSON_spec (some docNoHabits) (Json.str "current")).2.2 docNoHabits rfl
    (Or.inr (Or.inl rfl))

theorem filter_ne_id_eq_self {l : List Habit} {id : String}
    (h : ∀ hb ∈ l, ¬ hb.id = id) :
    l.filter (fun hb => ¬ (hb.id = id)) = l := by
  induction l with
  | nil => rfl
  | cons a l ih =>
    have ha := h a (by simp)
    rw [List.filter_cons, if_pos (by simp [ha]), ih (fun hb hm => h hb (by simp [hm]))]

/-- Claim C6: adding a fresh habit and then removing it restores the
original state exactly (habit list and tick mapping included), and the
added habit's tick array is gone from the mapping. -/
theorem addRemove_roundtrip (w : WeekState) (id name : String)
    (hfresh : ∀ hb ∈ w.habits, ¬ hb.id = id)
    (hticks : objGet w.ticks id = none) :
    removeHabit (addHabit w id name) id = w ∧
    objGet (removeHabit (addHabit w id name) id).ticks id = none := by
  have hticks' :
      objRemove (objUpsert w.ticks id (List.replicate 7 false)) id = w.ticks := by
    rw [objUpsert, if_neg (by rw [hticks]; simp), objRemove_append_single,
      objRemove_absent w.ticks id hticks]
  have hhabits :
      (w.habits ++ [Habit.mk id name true .inner]).filter
          (fun hb => ¬ (hb.id = id)) = w.habits := by
    rw [List.filter_append, filter_ne_id_eq_self hfresh]
    simp
  constructor
  · rw [removeHabit, addHabit]
    simp only
    rw [hticks', hhabits]
  · rw [removeHabit]
    simp [objGet_objRemove]

/-- Witness for `addRemove_roundtrip`: a fresh habit added to a new week
and removed again leaves the state as it was. -/
theorem addRemove_roundtrip_witness :
    removeHabit (addHabit (newWeekState "2024-01-06" "t2") "yoga-1234" "Yoga")
        "yoga-1234" = newWeekState "2024-01-06" "t2" ∧
    objGet (removeHabit
        (addHabit (newWeekState "2024-01-06" "t2") "yoga-1234" "Yoga")
        "yoga-1234").ticks "yoga-1234" = none :=
  addRemove_roundtrip (newWeekState "2024-01-06" "t2") "yoga-1234" "Yoga"
    (by decide) (by decide)

/-- Claim C8: the store read path returns the parsed persisted value when
the key holds one, and the freshly initialized default week state when the
key is missing or its contents fail to parse; it is total, so it never
fails. -/
theorem loadOrCreate_spec (iso now : String)
    (entry : Option (Option WeekState)) :
    (∀ v, entry = some (some v) →
      loadOrCreate entry (newWeekState iso now) = v) ∧
    ((entry = none ∨ entry = some none) →
      loadOrCreate entry (newWeekState iso now) = newWeekState iso now) := by
  constructor
  · intro v hv
    rw [hv]
    rfl
  · intro hv
    rcases hv with hv | hv <;> rw [hv] <;> rfl

/-- Witness for `loadOrCreate_spec`: a corrupt entry falls back to the
default state. -/
theorem loadOrCreate_spec_witness :
    loadOrCreate (some none) (newWeekState "2024-01-06" "t3") =
      newWeekState "2024-01-06" "t3" :=
  (loadOrCreate_spec "2024-01-06" "t3" (some none)).2 (Or.inr rfl)

/-- Claim C10: `setTick` on a habit id present in the tick mapping with a
day index in range changes only entry `dayIndex` of that habit's array:
every other field of the state, every other habit's array, the array's
length, and every other index of the array are unchanged. -/
theorem setTick_frame (w : WeekState) (id : String) (d : ℕ) (v : Bool)
    (arr : List Bool) (hp : objGet w.ticks id = some arr) (hd : d < 7) :
    (setTick w id d v).meta = w.meta ∧
    (setTick w id d v).metrics = w.metrics ∧
    (setTick w id d v).habits = w.habits ∧
    (setTick w id d v).sections = w.sections ∧
    (setTick w id d v).oneTime = w.oneTime ∧
    (setTick w id d v).wins = w.wins ∧
    (setTick w id d v).reflection = w.reflection ∧
    (∀ k, ¬ k = id →
      objGet (setTick w id d v).ticks k = objGet w.ticks k) ∧
    objGet (setTick w id d v).ticks id = some (arr.set d v) ∧
    (arr.set d v).length = arr.length ∧
    (∀ i, ¬ i = d → (arr.set d v)[i]? = arr[i]?) := by
  refine ⟨rfl, rfl, rfl, rfl, rfl, rfl, rfl, ?_, ?_, ?_, ?_⟩
  · intro k hk
    rw [setTick]
    simp only [objGet_objUpsert]
    rw [if_neg hk]
  · rw [setTick]
    simp only [objGet_objUpsert, if_pos rfl, hp]
    rfl
  · exact List.length_set arr d v
  · intro i hi
    exact List.getElem?_set_ne (fun h => hi h.symm)

/-- Witness for `setTick_frame`: ticking Wednesday of one habit leaves
another habit's array untouched. -/
theorem setTick_frame_witness :
    objGet (setTick (newWeekState "2024-01-06" "t4") "sleep" 2 true).ticks
        "move" = objGet (newWeekState "2024-01-06" "t4").ticks "move" :=
  (setTick_frame (newWeekState "2024-01-06" "t4") "sleep" 2 true
      (List.replicate 7 false) (by decide) (by decide)).2.2.2.2.2.2.2.1
    "move" (by decide)

/-- A week state for week 0 that differs from the defaults (it has a
recorded win), persisted under its key. -/
def wkA : WeekState :=
  { newWeekState (isoOfDay 0) "t0" with wins := ["big win", "", "", "", ""] }

/-- The app showing week 0 with `wkA` both in memory and persisted. -/
def appA : App := ⟨0, wkA, [(isoOfDay 0, wkA)]⟩

/-- Claim C7 fails on the code: shifting a week forward and back returns
the active pointer to the original week, but `useLocalState` never
re-reads storage when its key changes, so the in-memory state stays the
fresh next-week object and the persist effect overwrites the original
week's entry with it (week-start patched back by the fixup effect).  The
persisted state for week 0 is no longer `wkA`; it is the default state
that was created for week 1. -/
theorem shiftWeek_pair_clobbers :
    (shiftWeek (shiftWeek appA 1 "t1") (-1) "t1").weekStart = appA.weekStart ∧
    ¬ objGet (shiftWeek (shiftWeek appA 1 "t1") (-1) "t1").storage (isoOfDay 0)
        = some wkA ∧
    objGet (shiftWeek (shiftWeek appA 1 "t1") (-1) "t1").storage (isoOfDay 0)
      = some { newWeekState (isoOfDay 7) "t1" with
               meta := { (newWeekState (isoOfDay 7) "t1").meta with
                         weekStart := isoOfDay 0 } } := by
  refine ⟨by decide, by decide, by decide⟩

theorem mapOpt_map {α β : Type} (f : α → β) (g : β → Option α)
    (hfg : ∀ a, g (f a) = some a) : ∀ l : List α, mapOpt g (l.map f) = some l := by
  intro l
  induction l with
  | nil => rfl
  | cons a rest ih => simp [mapOpt, hfg, ih]

theorem decodeKind_encodeKind (k : HabitKind) :
    decodeKind (encodeKind k) = some k := by
  cases k <;> rfl

theorem decodeHabit_encodeHabit (h : Habit) :
    decodeHabit (encodeHabit h) = some h := by
  obtain ⟨id, name, en, kd⟩ := h
  cases kd <;> rfl

theorem decodeItem_encodeItem (it : ChecklistItem) :
    decodeItem (encodeItem it) = some it := by
  obtain ⟨a, b, c⟩ := it
  rfl

theorem decodeSect_encodeSect (s : Sect) :
    decodeSect (encodeSect s) = some s := by
  cases s with
  | checklist id title items =>
    simp [encodeSect, decodeSect,
      mapOpt_map encodeItem decodeItem decodeItem_encodeItem]
  | notes id title text => rfl
  | number id title value => rfl

theorem decodeTickEntry_encode (p : String × List Bool) :
    decodeTickEntry (p.1, .arr (p.2.map Json.bool)) = some p := by
  obtain ⟨k, bs⟩ := p
  simp [decodeTickEntry, mapOpt_map Json.bool decodeBool (fun b => rfl)]

theorem decodeMeta_encodeMeta (m : Meta) :
    decodeMeta (encodeMeta m) = some m := by
  obtain ⟨a, b, c, d⟩ := m
  rfl

theorem decodeMetrics_encodeMetrics (m : Metrics) :
    decodeMetrics (encodeMetrics m) = some m := by
  obtain ⟨a, b, c, d, e⟩ := m
  simp [encodeMetrics, decodeMetrics,
    mapOpt_map Json.num decodeNum (fun q => rfl)]

theorem decodeOneTime_encodeOneTime (o : OneTime) :
    decodeOneTime (encodeOneTime o) = some o := by
  obtain ⟨a, b, c, d, e, f, g⟩ := o
  rfl

theorem decodeReflection_encodeReflection (r : Reflection) :
    decodeReflection (encodeReflection r) = some r := by
  obtain ⟨a, b, c, d, e, f, g⟩ := r
  rfl

theorem decodeWeekState_export (w : WeekState) :
    decodeWeekState (exportJSONDoc w) = some w := by
  obtain ⟨m, x, hs, ts, ss, o, ws, r⟩ := w
  simp only [exportJSONDoc, decodeWeekState]
  rw [decodeMeta_encodeMeta, decodeMetrics_encodeMetrics,
    mapOpt_map encodeHabit decodeHabit decodeHabit_encodeHabit,
    mapOpt_map _ decodeTickEntry decodeTickEntry_encode,
    mapOpt_map encodeSect decodeSect decodeSect_encodeSect,
    decodeOneTime_encodeOneTime,
    mapOpt_map Json.str decodeStr (fun a => rfl),
    decodeReflection_encodeReflection]

/-- Claim C5: importing the document produced by export is accepted
without error, installs exactly that document as the active state, and
the document decodes back to the original week state, so the round-trip
is the identity. -/
theorem export_import_roundtrip (w : WeekState) (cur : Json) :
    importJSONRun (some (exportJSONDoc w)) cur = (exportJSONDoc w, false) ∧
    decodeWeekState (exportJSONDoc w) = some w := by
  constructor
  · have hc : importCheck (exportJSONDoc w) = true := by
      simp [importCheck, fieldTruthy, jget, exportJSONDoc, objGet, Json.truthy, encodeMeta]
    rw [importJSONRun, if_pos hc]
  · exact decodeWeekState_export w

end InnerTracker
